import Mathlib

/-!
Verification of the many-query construction core of `prisma-client-rust`
(`src/queries/find_many.rs`), over a shallow embedding of the builder types
and of the value/selection substrate they emit into.

The source file under verification is `find_many.rs`.  The collaborators it
uses (`PrismaValue` from `prisma_models`, `QueryValue` / `Selection` /
`SelectionBuilder` from `query_core`, `merged_object` and `SerializedWhere`
from the crate root, the `Count` / `UpdateMany` / `DeleteMany` builders, and
the engine execution context) are not part of the source under `src/`; each
of these is modelled from the specification, as indicated in the doc comment
of the corresponding definition.
-/

/-- Modelled from the spec: the tagged value union (spec §3 `Value`,
`prisma_models::PrismaValue`): `Null | Bool | Int | Float | String |
List<Value> | Object(ordered mapping String→Value)`.  The object constructor
carries its entries as an ordered list of pairs (insertion order preserved);
the decimal payload of `float` is carried as its literal text, which is inert
for every property proved here. -/
inductive PValue : Type where
  | null : PValue
  | boolean : Bool → PValue
  | int : Int → PValue
  | float : String → PValue
  | string : String → PValue
  | list : List PValue → PValue
  | object : List (String × PValue) → PValue

/-- The keys of an ordered association list of object entries. -/
def keys (l : List (String × PValue)) : List String :=
  l.map Prod.fst

/-- Ordered association-list lookup: the value at the first entry whose key
matches, if any. -/
def alookup : List (String × PValue) → String → Option PValue
  | [], _ => none
  | (k, v) :: l, k' => if k = k' then some v else alookup l k'

/-- Map a function over the values of an association list, keeping keys and
order. -/
def mapVal (f : PValue → PValue) (l : List (String × PValue)) :
    List (String × PValue) :=
  l.map (fun p => (p.1, f p.2))

/-- Modelled from the spec (§4.1 merge rule, key part): insert one key into an
ordered key list — if the key is already present nothing changes, otherwise it
is appended at the end. -/
def insertKey (acc : List String) (k : String) : List String :=
  if k ∈ acc then acc else acc ++ [k]

/-- The distinct keys of a key list, in first-occurrence order. -/
def firstOccurrences (l : List String) : List String :=
  l.foldl insertKey []

/-- Overwrite the value stored at a key, keeping every entry's position. -/
def overwriteVal : List (String × PValue) → String → PValue → List (String × PValue)
  | [], _, _ => []
  | (k1, v1) :: l, k0, v0 =>
    if k1 = k0 then (k1, v0) :: overwriteVal l k0 v0
    else (k1, v1) :: overwriteVal l k0 v0

/-- Modelled from the spec (§4.1 merge rule): insert one `(key, value)` entry
into an ordered mapping — if the key is already present its value is
overwritten in place (position unchanged), otherwise the entry is appended at
the end. -/
def mergeInsert (acc : List (String × PValue)) (kv : String × PValue) :
    List (String × PValue) :=
  if kv.1 ∈ keys acc then overwriteVal acc kv.1 kv.2
  else acc ++ [kv]

/-- Modelled from the spec (§4.1): merge a pair list into an ordered mapping
by iterating the items left-to-right and inserting each one with
`mergeInsert` — stable key ordering, last value wins. -/
def mergePairs (pairs : List (String × PValue)) : List (String × PValue) :=
  pairs.foldl mergeInsert []

/-- Modelled from the spec: `crate::merged_object` (referenced by
`find_many.rs` line 134 but defined outside `src/`) builds one `Object` value
whose entries are the supplied pairs merged per the §4.1 rule. -/
def merged_object (args : List (String × PValue)) : PValue :=
  .object (mergePairs args)

mutual
/-- Modelled from the spec: the conversion applied to a value when it is
attached to a selection argument (`query_core`'s conversion from
`PrismaValue` to the engine-side `QueryValue`, whose objects are
insertion-ordered unique-key maps).  Spec §3: "keys within one object are
unique — constructing with duplicate keys must deterministically resolve
(see merge rule)"; accordingly each object's entries are merged per §4.1,
recursively. -/
def toQueryValue : PValue → PValue
  | .null => .null
  | .boolean b => .boolean b
  | .int i => .int i
  | .float f => .float f
  | .string s => .string s
  | .list xs => .list (toQueryValueList xs)
  | .object fs => .object (mergePairs (toQueryValueFields fs))

/-- Pointwise `toQueryValue` on a list of values. -/
def toQueryValueList : List PValue → List PValue
  | [] => []
  | x :: xs => toQueryValue x :: toQueryValueList xs

/-- Pointwise `toQueryValue` on the values of an entry list. -/
def toQueryValueFields : List (String × PValue) → List (String × PValue)
  | [] => []
  | (k, v) :: fs => (k, toQueryValue v) :: toQueryValueFields fs
end

theorem toQueryValueFields_eq_mapVal (fs : List (String × PValue)) :
    toQueryValueFields fs = mapVal toQueryValue fs := by
  induction fs with
  | nil => rfl
  | cons p fs ih => cases p; simp [toQueryValueFields, mapVal] at ih ⊢; exact ih

theorem toQueryValue_object (fs : List (String × PValue)) :
    toQueryValue (.object fs) = .object (mergePairs (mapVal toQueryValue fs)) := by
  rw [toQueryValue, toQueryValueFields_eq_mapVal]

/-- First-some alternative on optional values. -/
def oalt : Option PValue → Option PValue → Option PValue
  | some v, _ => some v
  | none, o => o

theorem oalt_none_right (a : Option PValue) : oalt a none = a := by
  cases a <;> rfl


theorem alookup_cons (k1 : String) (v1 : PValue) (l : List (String × PValue))
    (k : String) :
    alookup ((k1, v1) :: l) k = if k1 = k then some v1 else alookup l k := rfl

theorem keys_overwriteVal (acc : List (String × PValue)) (k0 : String)
    (v0 : PValue) : keys (overwriteVal acc k0 v0) = keys acc := by
  induction acc with
  | nil => rfl
  | cons p acc ih =>
    obtain ⟨k1, v1⟩ := p
    by_cases h1 : k1 = k0 <;> simp [overwriteVal, keys, h1] <;>
      simpa [keys] using ih

theorem keys_mergeInsert (acc : List (String × PValue)) (kv : String × PValue) :
    keys (mergeInsert acc kv) = insertKey (keys acc) kv.1 := by
  unfold mergeInsert insertKey
  by_cases h : kv.1 ∈ keys acc
  · rw [if_pos h, if_pos h, keys_overwriteVal]
  · rw [if_neg h, if_neg h]
    simp [keys]

theorem keys_foldl_mergeInsert (l : List (String × PValue)) :
    ∀ acc, keys (List.foldl mergeInsert acc l) =
      List.foldl insertKey (keys acc) (keys l) := by
  induction l with
  | nil => intro acc; rfl
  | cons kv l ih =>
    intro acc
    rw [List.foldl_cons, ih, keys_mergeInsert]
    rfl

theorem keys_mergePairs (l : List (String × PValue)) :
    keys (mergePairs l) = firstOccurrences (keys l) :=
  keys_foldl_mergeInsert l []

theorem nodup_insertKey (acc : List String) (k : String) (h : acc.Nodup) :
    (insertKey acc k).Nodup := by
  unfold insertKey
  by_cases hk : k ∈ acc
  · rwa [if_pos hk]
  · rw [if_neg hk]
    simp [List.nodup_append, h, hk]

theorem nodup_foldl_insertKey (l : List String) :
    ∀ acc, acc.Nodup → (List.foldl insertKey acc l).Nodup := by
  induction l with
  | nil => intro acc h; exact h
  | cons k l ih =>
    intro acc h
    exact ih _ (nodup_insertKey acc k h)

theorem nodup_firstOccurrences (l : List String) : (firstOccurrences l).Nodup :=
  nodup_foldl_insertKey l [] List.nodup_nil

theorem nodup_keys_mergePairs (l : List (String × PValue)) :
    (keys (mergePairs l)).Nodup := by
  rw [keys_mergePairs]; exact nodup_firstOccurrences _

theorem alookup_append (a b : List (String × PValue)) (k : String) :
    alookup (a ++ b) k = oalt (alookup a k) (alookup b k) := by
  induction a with
  | nil => rfl
  | cons p a ih =>
    obtain ⟨k1, v1⟩ := p
    rw [List.cons_append, alookup_cons, alookup_cons]
    by_cases h : k1 = k
    · rw [if_pos h, if_pos h]; rfl
    · rw [if_neg h, if_neg h, ih]

theorem alookup_eq_none_iff (l : List (String × PValue)) (k : String) :
    alookup l k = none ↔ k ∉ keys l := by
  induction l with
  | nil => simp [alookup, keys]
  | cons p l ih =>
    obtain ⟨k1, v1⟩ := p
    rw [alookup_cons, show keys ((k1, v1) :: l) = k1 :: keys l from rfl]
    by_cases h : k1 = k
    · subst h; simp
    · have h' : ¬ k = k1 := fun hc => h hc.symm
      rw [if_neg h, ih]
      simp [List.mem_cons, h']

theorem alookup_overwriteVal_ne (acc : List (String × PValue)) (k0 : String)
    (v0 : PValue) (k : String) (h : k ≠ k0) :
    alookup (overwriteVal acc k0 v0) k = alookup acc k := by
  induction acc with
  | nil => rfl
  | cons p acc ih =>
    obtain ⟨k1, v1⟩ := p
    by_cases h1 : k1 = k0
    · subst h1
      have hne : ¬ k1 = k := fun hc => h (hc ▸ rfl)
      rw [overwriteVal, if_pos rfl, alookup_cons, if_neg hne, alookup_cons,
        if_neg hne, ih]
    · rw [overwriteVal, if_neg h1, alookup_cons, alookup_cons]
      by_cases h2 : k1 = k
      · rw [if_pos h2, if_pos h2]
      · rw [if_neg h2, if_neg h2, ih]

theorem alookup_overwriteVal_eq (acc : List (String × PValue)) (k0 : String)
    (v0 : PValue) (h : k0 ∈ keys acc) :
    alookup (overwriteVal acc k0 v0) k0 = some v0 := by
  induction acc with
  | nil => simp [keys] at h
  | cons p acc ih =>
    obtain ⟨k1, v1⟩ := p
    by_cases h1 : k1 = k0
    · rw [overwriteVal, if_pos h1, alookup_cons, if_pos h1]
    · have h' : k0 ∈ keys acc := by
        rw [show keys ((k1, v1) :: acc) = k1 :: keys acc from rfl] at h
        rcases List.mem_cons.mp h with hc | hc
        · exact absurd hc.symm h1
        · exact hc
      rw [overwriteVal, if_neg h1, alookup_cons, if_neg h1, ih h']

theorem alookup_mergeInsert (acc : List (String × PValue))
    (kv : String × PValue) (k : String) :
    alookup (mergeInsert acc kv) k =
      if k = kv.1 then some kv.2 else alookup acc k := by
  obtain ⟨k0, v0⟩ := kv
  unfold mergeInsert
  by_cases hmem : k0 ∈ keys acc
  · rw [if_pos hmem]
    by_cases h : k = k0
    · subst h; rw [if_pos rfl, alookup_overwriteVal_eq acc k v0 hmem]
    · rw [if_neg h, alookup_overwriteVal_ne acc k0 v0 k h]
  · rw [if_neg hmem, alookup_append]
    by_cases h : k = k0
    · subst h
      rw [if_pos rfl, (alookup_eq_none_iff acc k).mpr hmem]
      rw [show alookup [(k, v0)] k = some v0 from by
        rw [alookup_cons, if_pos rfl]]
      rfl
    · rw [if_neg h]
      rw [show alookup [(k0, v0)] k = none from by
        rw [alookup_cons,
          if_neg (show ¬ k0 = k from fun hc => h hc.symm)]; rfl]
      exact oalt_none_right _

theorem alookup_foldl_mergeInsert (l : List (String × PValue)) :
    ∀ (acc : List (String × PValue)) (k : String),
      alookup (List.foldl mergeInsert acc l) k =
        oalt (alookup l.reverse k) (alookup acc k) := by
  induction l with
  | nil => intro acc k; rfl
  | cons kv l ih =>
    intro acc k
    obtain ⟨k0, v0⟩ := kv
    rw [List.foldl_cons, ih, List.reverse_cons, alookup_append]
    cases halt : alookup l.reverse k with
    | some v => rfl
    | none =>
      show alookup (mergeInsert acc (k0, v0)) k =
        oalt (alookup [(k0, v0)] k) (alookup acc k)
      rw [alookup_mergeInsert]
      by_cases h : k = k0
      · subst h
        rw [if_pos rfl, alookup_cons, if_pos rfl]
        rfl
      · rw [if_neg h, alookup_cons,
          if_neg (show ¬ k0 = k from fun hc => h hc.symm)]
        rfl

theorem alookup_mergePairs (l : List (String × PValue)) (k : String) :
    alookup (mergePairs l) k = alookup l.reverse k := by
  rw [mergePairs, alookup_foldl_mergeInsert l [] k]
  exact oalt_none_right _

theorem keys_mapVal (f : PValue → PValue) (l : List (String × PValue)) :
    keys (mapVal f l) = keys l := by
  induction l with
  | nil => rfl
  | cons p l ih =>
    obtain ⟨k, v⟩ := p
    show k :: keys (mapVal f l) = k :: keys l
    rw [ih]

theorem overwriteVal_mapVal (f : PValue → PValue)
    (acc : List (String × PValue)) (k0 : String) (v0 : PValue) :
    overwriteVal (mapVal f acc) k0 (f v0) = mapVal f (overwriteVal acc k0 v0) := by
  induction acc with
  | nil => rfl
  | cons p acc ih =>
    obtain ⟨k1, v1⟩ := p
    by_cases h1 : k1 = k0
    · rw [show overwriteVal ((k1, v1) :: acc) k0 v0 =
          (k1, v0) :: overwriteVal acc k0 v0 from by
        rw [overwriteVal, if_pos h1],
        show mapVal f ((k1, v1) :: acc) = (k1, f v1) :: mapVal f acc from rfl,
        show overwriteVal ((k1, f v1) :: mapVal f acc) k0 (f v0) =
          (k1, f v0) :: overwriteVal (mapVal f acc) k0 (f v0) from by
        rw [overwriteVal, if_pos h1],
        ih]
      rfl
    · rw [show overwriteVal ((k1, v1) :: acc) k0 v0 =
          (k1, v1) :: overwriteVal acc k0 v0 from by
        rw [overwriteVal, if_neg h1],
        show mapVal f ((k1, v1) :: acc) = (k1, f v1) :: mapVal f acc from rfl,
        show overwriteVal ((k1, f v1) :: mapVal f acc) k0 (f v0) =
          (k1, f v1) :: overwriteVal (mapVal f acc) k0 (f v0) from by
        rw [overwriteVal, if_neg h1],
        ih]
      rfl

theorem mergeInsert_mapVal (f : PValue → PValue)
    (acc : List (String × PValue)) (kv : String × PValue) :
    mergeInsert (mapVal f acc) (kv.1, f kv.2) = mapVal f (mergeInsert acc kv) := by
  obtain ⟨k0, v0⟩ := kv
  unfold mergeInsert
  rw [keys_mapVal]
  by_cases h : k0 ∈ keys acc
  · rw [if_pos h, if_pos h]
    exact overwriteVal_mapVal f acc k0 v0
  · rw [if_neg h, if_neg h]
    simp [mapVal]

theorem foldl_mergeInsert_mapVal (f : PValue → PValue)
    (l : List (String × PValue)) :
    ∀ acc, List.foldl mergeInsert (mapVal f acc) (mapVal f l) =
      mapVal f (List.foldl mergeInsert acc l) := by
  induction l with
  | nil => intro acc; rfl
  | cons kv l ih =>
    intro acc
    obtain ⟨k0, v0⟩ := kv
    show List.foldl mergeInsert (mapVal f acc) ((k0, f v0) :: mapVal f l) = _
    rw [List.foldl_cons, List.foldl_cons,
      show ((k0 : String), f v0) = (((k0, v0) : String × PValue).1,
        f ((k0, v0) : String × PValue).2) from rfl,
      mergeInsert_mapVal f acc (k0, v0)]
    exact ih (mergeInsert acc (k0, v0))

theorem mergePairs_mapVal (f : PValue → PValue) (l : List (String × PValue)) :
    mergePairs (mapVal f l) = mapVal f (mergePairs l) := by
  have h := foldl_mergeInsert_mapVal f l []
  rw [show mapVal f [] = ([] : List (String × PValue)) from rfl] at h
  rw [mergePairs, mergePairs]
  exact h

theorem foldl_mergeInsert_of_nodup (l : List (String × PValue)) :
    ∀ acc, (keys (acc ++ l)).Nodup → List.foldl mergeInsert acc l = acc ++ l := by
  induction l with
  | nil => intro acc _; simp
  | cons kv l ih =>
    intro acc h
    obtain ⟨k0, v0⟩ := kv
    have hkeys : keys (acc ++ (k0, v0) :: l) = keys acc ++ k0 :: keys l := by
      simp [keys]
    rw [hkeys] at h
    have hk : k0 ∉ keys acc := by
      rcases List.nodup_append.mp h with ⟨_, _, hdisj⟩
      intro hc
      exact hdisj hc (List.mem_cons_self k0 (keys l))
    rw [List.foldl_cons,
      show mergeInsert acc (k0, v0) = acc ++ [(k0, v0)] from by
        unfold mergeInsert; rw [if_neg hk],
      ih (acc ++ [(k0, v0)]) (by
        rw [show (acc ++ [(k0, v0)]) ++ l = acc ++ (k0, v0) :: l from by simp,
          hkeys]
        exact h)]
    simp

theorem mergePairs_of_nodup_keys (l : List (String × PValue))
    (h : (keys l).Nodup) : mergePairs l = l := by
  rw [mergePairs, foldl_mergeInsert_of_nodup l [] (by simpa using h)]
  rfl

theorem mergePairs_idem (l : List (String × PValue)) :
    mergePairs (mergePairs l) = mergePairs l :=
  mergePairs_of_nodup_keys _ (nodup_keys_mergePairs l)

theorem toQueryValue_merged_object (l : List (String × PValue)) :
    toQueryValue (merged_object l) = toQueryValue (.object l) := by
  rw [merged_object, toQueryValue_object, toQueryValue_object,
    ← mergePairs_mapVal, mergePairs_idem, mergePairs_mapVal]

theorem length_le_mergeInsert (acc : List (String × PValue))
    (kv : String × PValue) : acc.length ≤ (mergeInsert acc kv).length := by
  unfold mergeInsert
  by_cases h : kv.1 ∈ keys acc
  · rw [if_pos h]
    have : keys (overwriteVal acc kv.1 kv.2) = keys acc := keys_overwriteVal ..
    have hlen : (keys (overwriteVal acc kv.1 kv.2)).length = (keys acc).length :=
      by rw [this]
    simpa [keys] using hlen.ge
  · rw [if_neg h]
    simp

theorem length_le_foldl_mergeInsert (l : List (String × PValue)) :
    ∀ acc, acc.length ≤ (List.foldl mergeInsert acc l).length := by
  induction l with
  | nil => intro acc; exact le_refl _
  | cons kv l ih =>
    intro acc
    rw [List.foldl_cons]
    exact le_trans (length_le_mergeInsert acc kv) (ih (mergeInsert acc kv))

theorem mergePairs_ne_nil (l : List (String × PValue)) (h : l ≠ []) :
    mergePairs l ≠ [] := by
  cases l with
  | nil => exact absurd rfl h
  | cons kv l =>
    have h1 : mergeInsert [] kv = [kv] := by
      unfold mergeInsert
      rw [if_neg (by simp [keys])]
      rfl
    rw [mergePairs, List.foldl_cons, h1]
    have := length_le_foldl_mergeInsert l [kv]
    intro hc
    rw [hc] at this
    simp at this

/-- Modelled from the spec (§3 `Selection`, `query_core::Selection`): a named
node of the wire query tree with an optional alias (field `alias` in the
source; named `alias_` here because `alias` is reserved), an ordered list of
`(argument name, value)` pairs holding engine-side query values, and an
ordered list of child selections. -/
inductive Selection : Type where
  | mk : (name : String) → (alias_ : Option String) →
      (arguments : List (String × PValue)) →
      (nested_selections : List Selection) → Selection

def Selection.name : Selection → String
  | .mk n _ _ _ => n

def Selection.alias_ : Selection → Option String
  | .mk _ a _ _ => a

def Selection.arguments : Selection → List (String × PValue)
  | .mk _ _ args _ => args

def Selection.nested_selections : Selection → List Selection
  | .mk _ _ _ ns => ns

/-- Modelled from the spec (§3 `Operation`): a Read- or Write-tagged wrapper
around a root selection. -/
inductive Operation : Type where
  | read : Selection → Operation
  | write : Selection → Operation

/-- The root selection an operation wraps. -/
def Operation.rootSelection : Operation → Selection
  | .read s => s
  | .write s => s

/-- Modelled from the spec (§4.2, `query_core::SelectionBuilder`): the mutable
accumulating state from which a selection is built. -/
structure SelectionBuilder : Type where
  name : String
  alias_ : Option String
  arguments : List (String × PValue)
  nested_selections : List Selection

/-- Modelled from the spec (§4.2 `create`): `Selection::builder(name)` starts
a bare node. -/
def Selection.builder (name : String) : SelectionBuilder :=
  ⟨name, none, [], []⟩

/-- Modelled from the spec (§4.2 `alias`): sets the optional rename visible to
the engine (named `set_alias` here because the accessor takes `alias_`). -/
def SelectionBuilder.set_alias (s : SelectionBuilder) (a : String) :
    SelectionBuilder :=
  { s with alias_ := some a }

/-- Modelled from the spec (§4.2 `push_argument`): appends one
`(name, value)` pair, no de-duplication across separate calls; the attached
value is converted to the engine-side query value (`Into<QueryValue>`). -/
def SelectionBuilder.push_argument (s : SelectionBuilder) (arg : String)
    (value : PValue) : SelectionBuilder :=
  { s with arguments := s.arguments ++ [(arg, toQueryValue value)] }

/-- Modelled from the spec (§4.2 `nested_selections`): appends child field
nodes (named `add_nested_selections` here because the accessor takes
`nested_selections`). -/
def SelectionBuilder.add_nested_selections (s : SelectionBuilder)
    (children : List Selection) : SelectionBuilder :=
  { s with nested_selections := s.nested_selections ++ children }

/-- Modelled from the spec (§4.2 `build`): freezes the accumulated state into
an immutable selection. -/
def SelectionBuilder.build (s : SelectionBuilder) : Selection :=
  .mk s.name s.alias_ s.arguments s.nested_selections

/-- Modelled from the spec (§6/§7): the engine boundary's asynchronous
result — typed rows, or an opaque engine error propagated verbatim. -/
inductive EngineResult (α : Type) : Type where
  | ok : α → EngineResult α
  | err : String → EngineResult α

/-- Modelled from the spec (§6): the execution context of the engine
boundary, carried by every builder and handed back, together with the built
operation, at the terminal execution call.  Its internals are external to
this core; it is represented by the engine entry point it gives access
to. -/
structure QueryContext : Type where
  engine : Operation → EngineResult (List PValue)

/-- Modelled from the spec (§6): the typed execution entry point — hands the
operation to the engine and returns its result verbatim. -/
def QueryContext.execute (ctx : QueryContext) (op : Operation) :
    EngineResult (List PValue) :=
  ctx.engine op

/-- Modelled from the spec (§3 `QueryInfo`): the model name and the default
scalar field selections supplied by the external model/schema layer. -/
structure QueryInfo : Type where
  model : String
  scalar_selections : List Selection

/-- Modelled from the spec (§3 `WhereClause`, `crate::SerializedWhere`): the
common wire form of a where clause — a field name and a value. -/
structure SerializedWhere : Type where
  field : String
  value : PValue

/-- Modelled from the spec: the conversion of a serialized where clause into
its `(field, value)` pair (`Into<(String, PrismaValue)> for SerializedWhere`). -/
def SerializedWhere.toPair (s : SerializedWhere) : String × PValue :=
  (s.field, s.value)

/-- The `Where: Into<SerializedWhere>` trait bound of the source. -/
class IntoSerializedWhere (α : Type) : Type where
  intoSerializedWhere : α → SerializedWhere

/-- The `With: Into<Selection>` trait bound of the source. -/
class IntoSelection (α : Type) : Type where
  intoSelection : α → Selection

/-- The `OrderBy: Into<(String, PrismaValue)>` (and likewise `Cursor`, `Set`)
trait bound of the source. -/
class IntoPair (α : Type) : Type where
  intoPair : α → String × PValue

instance : IntoSerializedWhere (String × PValue) :=
  ⟨fun p => ⟨p.1, p.2⟩⟩

instance : IntoPair (String × PValue) :=
  ⟨fun p => p⟩

instance : IntoSelection Selection :=
  ⟨fun s => s⟩

/-- Modelled from the spec: the field-projection boundary (`SelectType`): a
projection descriptor supplies an ordered list of child selections
(`to_selections`); this core treats it as opaque. -/
class SelectType (σ : Type) : Type where
  to_selections : σ → List Selection

instance : SelectType (List Selection) :=
  ⟨fun l => l⟩

/-- Modelled from the spec: the builder holding an already-built operation
plus the execution context (`Select::new(ctx, op)`), produced by the
projection path. -/
structure Select : Type where
  ctx : QueryContext
  operation : Operation

def Select.new (ctx : QueryContext) (op : Operation) : Select :=
  ⟨ctx, op⟩

/-- Modelled from the spec: the count builder; `Count::new` (crate code
outside `src/`) transplants only context, model info and where-parameters
(its order-by and cursor type parameters are phantom at construction). -/
structure Count (Where OrderBy Cursor : Type) : Type where
  ctx : QueryContext
  info : QueryInfo
  where_params : List Where

def Count.new {Where OrderBy Cursor : Type} (ctx : QueryContext)
    (info : QueryInfo) (where_params : List Where) :
    Count Where OrderBy Cursor :=
  ⟨ctx, info, where_params⟩

/-- Modelled from the spec: the update-many builder; `UpdateMany::new` (crate
code outside `src/`) takes context, model info, where-parameters and the new
set values. -/
structure UpdateMany (Where SetP : Type) : Type where
  ctx : QueryContext
  info : QueryInfo
  where_params : List Where
  data : List SetP

def UpdateMany.new {Where SetP : Type} (ctx : QueryContext) (info : QueryInfo)
    (where_params : List Where) (data : List SetP) : UpdateMany Where SetP :=
  ⟨ctx, info, where_params, data⟩

/-- Modelled from the spec: the delete-many builder; `DeleteMany::new` (crate
code outside `src/`) transplants only context, model info and
where-parameters. -/
structure DeleteMany (Where : Type) : Type where
  ctx : QueryContext
  info : QueryInfo
  where_params : List Where

def DeleteMany.new {Where : Type} (ctx : QueryContext) (info : QueryInfo)
    (where_params : List Where) : DeleteMany Where :=
  ⟨ctx, info, where_params⟩

/-- The `FindMany` builder (source lines 17-35): execution context, query
info, the six parameter holders.  The source's `Set` and `Data` type
parameters are phantom (`PhantomData`); they appear here only as type
arguments. -/
structure FindMany (Where WithP OrderBy Cursor SetP Data : Type) : Type where
  ctx : QueryContext
  info : QueryInfo
  where_params : List Where
  with_params : List WithP
  order_by_params : List OrderBy
  cursor_params : List Cursor
  skip : Option Int
  take : Option Int

/-- `FindMany::new` (lines 47-59). -/
def FindMany.new {Where WithP OrderBy Cursor SetP Data : Type}
    (ctx : QueryContext) (info : QueryInfo) (where_params : List Where) :
    FindMany Where WithP OrderBy Cursor SetP Data :=
  ⟨ctx, info, where_params, [], [], [], none, none⟩

/-- `FindMany::with` (lines 61-64); named `with_` because `with` is
reserved.  The source converts the argument via its `Into<With>` bound at the
call; the pushed, already-converted value is taken here. -/
def FindMany.with_ {Where WithP OrderBy Cursor SetP Data : Type}
    (self : FindMany Where WithP OrderBy Cursor SetP Data) (param : WithP) :
    FindMany Where WithP OrderBy Cursor SetP Data :=
  { self with with_params := self.with_params ++ [param] }

/-- `FindMany::order_by` (lines 66-69). -/
def FindMany.order_by {Where WithP OrderBy Cursor SetP Data : Type}
    (self : FindMany Where WithP OrderBy Cursor SetP Data) (param : OrderBy) :
    FindMany Where WithP OrderBy Cursor SetP Data :=
  { self with order_by_params := self.order_by_params ++ [param] }

/-- `FindMany::cursor` (lines 71-74). -/
def FindMany.cursor {Where WithP OrderBy Cursor SetP Data : Type}
    (self : FindMany Where WithP OrderBy Cursor SetP Data) (param : Cursor) :
    FindMany Where WithP OrderBy Cursor SetP Data :=
  { self with cursor_params := self.cursor_params ++ [param] }

/-- `FindMany::skip` (lines 76-79); named `set_skip` because the accessor
takes `skip`. -/
def FindMany.set_skip {Where WithP OrderBy Cursor SetP Data : Type}
    (self : FindMany Where WithP OrderBy Cursor SetP Data) (skip : Int) :
    FindMany Where WithP OrderBy Cursor SetP Data :=
  { self with skip := some skip }

/-- `FindMany::take` (lines 81-84); named `set_take` because the accessor
takes `take`. -/
def FindMany.set_take {Where WithP OrderBy Cursor SetP Data : Type}
    (self : FindMany Where WithP OrderBy Cursor SetP Data) (take : Int) :
    FindMany Where WithP OrderBy Cursor SetP Data :=
  { self with take := some take }

/-- `FindMany::update` (lines 86-95): destructures context, info and
where-parameters and hands them, with the new data, to `UpdateMany::new`. -/
def FindMany.update {Where WithP OrderBy Cursor SetP Data : Type}
    (self : FindMany Where WithP OrderBy Cursor SetP Data)
    (data : List SetP) : UpdateMany Where SetP :=
  UpdateMany.new self.ctx self.info self.where_params data

/-- `FindMany::delete` (lines 97-106). -/
def FindMany.delete {Where WithP OrderBy Cursor SetP Data : Type}
    (self : FindMany Where WithP OrderBy Cursor SetP Data) :
    DeleteMany Where :=
  DeleteMany.new self.ctx self.info self.where_params

/-- `FindMany::count` (lines 108-117). -/
def FindMany.count {Where WithP OrderBy Cursor SetP Data : Type}
    (self : FindMany Where WithP OrderBy Cursor SetP Data) :
    Count Where OrderBy Cursor :=
  Count.new self.ctx self.info self.where_params

/-- `FindMany::to_selection` (lines 119-162): root named
`findMany<model>`, aliased `result`; `where` (merged), `orderBy`, `cursor`
arguments pushed when their lists are non-empty; `skip`/`take` pushed when
set. -/
def FindMany.to_selection {Where OrderBy Cursor : Type}
    [IntoSerializedWhere Where] [IntoPair OrderBy] [IntoPair Cursor]
    (model : String) (where_params : List Where)
    (order_by_params : List OrderBy) (cursor_params : List Cursor)
    (skip : Option Int) (take : Option Int) : SelectionBuilder :=
  let selection := Selection.builder ("findMany" ++ model)
  let selection := selection.set_alias "result"
  let selection :=
    if where_params.length > 0 then
      selection.push_argument "where"
        (merged_object (where_params.map fun w =>
          ((IntoSerializedWhere.intoSerializedWhere w).field,
            (IntoSerializedWhere.intoSerializedWhere w).value)))
    else selection
  let selection :=
    if order_by_params.length > 0 then
      selection.push_argument "orderBy"
        (.object (order_by_params.map IntoPair.intoPair))
    else selection
  let selection :=
    if cursor_params.length > 0 then
      selection.push_argument "cursor"
        (.object (cursor_params.map IntoPair.intoPair))
    else selection
  let selection :=
    match skip with
    | some n => selection.push_argument "skip" (.int n)
    | none => selection
  let selection :=
    match take with
    | some n => selection.push_argument "take" (.int n)
    | none => selection
  selection

/-- `FindMany::select` (lines 164-179): builds the base selection, attaches
exactly the projection's selections as children, wraps into a read operation
and hands it with the context to `Select::new`. -/
def FindMany.select {Where WithP OrderBy Cursor SetP Data σ : Type}
    [IntoSerializedWhere Where] [IntoPair OrderBy] [IntoPair Cursor]
    [SelectType σ]
    (self : FindMany Where WithP OrderBy Cursor SetP Data) (sel : σ) :
    Select :=
  let selection := FindMany.to_selection self.info.model self.where_params
    self.order_by_params self.cursor_params self.skip self.take
  let selection :=
    selection.add_nested_selections (SelectType.to_selections sel)
  let op := Operation.read selection.build
  Select.new self.ctx op

/-- `FindMany::exec_operation` (lines 181-202): builds the base selection,
appends the converted with-parameters (when any) to the model's default
scalar selections, attaches those as children, and returns the read
operation together with the context. -/
def FindMany.exec_operation {Where WithP OrderBy Cursor SetP Data : Type}
    [IntoSerializedWhere Where] [IntoSelection WithP] [IntoPair OrderBy]
    [IntoPair Cursor]
    (self : FindMany Where WithP OrderBy Cursor SetP Data) :
    Operation × QueryContext :=
  let model := self.info.model
  let scalar_selections := self.info.scalar_selections
  let selection := FindMany.to_selection model self.where_params
    self.order_by_params self.cursor_params self.skip self.take
  let scalar_selections :=
    if self.with_params.length > 0 then
      scalar_selections ++ self.with_params.map IntoSelection.intoSelection
    else scalar_selections
  let selection := selection.add_nested_selections scalar_selections
  (Operation.read selection.build, self.ctx)

/-- `FindMany::exec` (lines 204-208): builds the operation and context via
`exec_operation` and hands the operation to the engine boundary. -/
def FindMany.exec {Where WithP OrderBy Cursor SetP Data : Type}
    [IntoSerializedWhere Where] [IntoSelection WithP] [IntoPair OrderBy]
    [IntoPair Cursor]
    (self : FindMany Where WithP OrderBy Cursor SetP Data) :
    EngineResult (List PValue) :=
  let p := self.exec_operation
  p.2.execute p.1

/-- `BatchQuery::graphql` for `FindMany` (lines 224-226): extract the
operation without executing. -/
def FindMany.graphql {Where WithP OrderBy Cursor SetP Data : Type}
    [IntoSerializedWhere Where] [IntoSelection WithP] [IntoPair OrderBy]
    [IntoPair Cursor]
    (self : FindMany Where WithP OrderBy Cursor SetP Data) : Operation :=
  self.exec_operation.1

/-- `BatchQuery::convert` for `FindMany` (lines 228-230): `RawType` and
`ReturnType` coincide and the raw result is returned unchanged. -/
def FindMany.convert {α : Type} (raw : EngineResult α) : EngineResult α :=
  raw

/-- The `ManyArgs` container (lines 233-247). -/
structure ManyArgs (Where WithP OrderBy Cursor : Type) : Type where
  where_params : List Where
  with_params : List WithP
  order_by_params : List OrderBy
  cursor_params : List Cursor
  skip : Option Int
  take : Option Int

/-- `ManyArgs::new` (lines 256-265). -/
def ManyArgs.new {Where WithP OrderBy Cursor : Type}
    (where_params : List Where) : ManyArgs Where WithP OrderBy Cursor :=
  ⟨where_params, [], [], [], none, none⟩

/-- `ManyArgs::with` (lines 267-270); named `with_` because `with` is
reserved. -/
def ManyArgs.with_ {Where WithP OrderBy Cursor : Type}
    (self : ManyArgs Where WithP OrderBy Cursor) (param : WithP) :
    ManyArgs Where WithP OrderBy Cursor :=
  { self with with_params := self.with_params ++ [param] }

/-- `ManyArgs::order_by` (lines 272-275). -/
def ManyArgs.order_by {Where WithP OrderBy Cursor : Type}
    (self : ManyArgs Where WithP OrderBy Cursor) (param : OrderBy) :
    ManyArgs Where WithP OrderBy Cursor :=
  { self with order_by_params := self.order_by_params ++ [param] }

/-- `ManyArgs::cursor` (lines 277-280). -/
def ManyArgs.cursor {Where WithP OrderBy Cursor : Type}
    (self : ManyArgs Where WithP OrderBy Cursor) (param : Cursor) :
    ManyArgs Where WithP OrderBy Cursor :=
  { self with cursor_params := self.cursor_params ++ [param] }

/-- `ManyArgs::skip` (lines 282-285); named `set_skip` because the accessor
takes `skip`. -/
def ManyArgs.set_skip {Where WithP OrderBy Cursor : Type}
    (self : ManyArgs Where WithP OrderBy Cursor) (skip : Int) :
    ManyArgs Where WithP OrderBy Cursor :=
  { self with skip := some skip }

/-- `ManyArgs::take` (lines 287-290); named `set_take` because the accessor
takes `take`. -/
def ManyArgs.set_take {Where WithP OrderBy Cursor : Type}
    (self : ManyArgs Where WithP OrderBy Cursor) (take : Int) :
    ManyArgs Where WithP OrderBy Cursor :=
  { self with take := some take }

/-- `ManyArgs::to_graphql` (lines 292-340): the nested selections are the
converted with-parameters (when any); the argument list holds `where`
(a plain object of all pairs, converted at the push via `Into<QueryValue>`),
`orderBy`, `cursor` when their lists are non-empty, then `skip`/`take` when
set. -/
def ManyArgs.to_graphql {Where WithP OrderBy Cursor : Type}
    [IntoSerializedWhere Where] [IntoSelection WithP] [IntoPair OrderBy]
    [IntoPair Cursor]
    (self : ManyArgs Where WithP OrderBy Cursor) :
    List (String × PValue) × List Selection :=
  let nested_selections : List Selection :=
    if self.with_params.length > 0 then
      self.with_params.map IntoSelection.intoSelection
    else []
  let arguments : List (String × PValue) := []
  let arguments :=
    if self.where_params.length > 0 then
      arguments ++ [("where",
        toQueryValue (.object (self.where_params.map fun w =>
          SerializedWhere.toPair (IntoSerializedWhere.intoSerializedWhere w))))]
    else arguments
  let arguments :=
    if self.order_by_params.length > 0 then
      arguments ++ [("orderBy",
        toQueryValue (.object (self.order_by_params.map IntoPair.intoPair)))]
    else arguments
  let arguments :=
    if self.cursor_params.length > 0 then
      arguments ++ [("cursor",
        toQueryValue (.object (self.cursor_params.map IntoPair.intoPair)))]
    else arguments
  let arguments :=
    match self.skip with
    | some n => arguments ++ [("skip", PValue.int n)]
    | none => arguments
  let arguments :=
    match self.take with
    | some n => arguments ++ [("take", PValue.int n)]
    | none => arguments
  (arguments, nested_selections)

/-- The `(field, value)` pairs of a converted where-parameter list. -/
def wherePairs {Where : Type} [IntoSerializedWhere Where]
    (where_params : List Where) : List (String × PValue) :=
  where_params.map fun w =>
    ((IntoSerializedWhere.intoSerializedWhere w).field,
      (IntoSerializedWhere.intoSerializedWhere w).value)

/-- The `(field, value)` pairs of a converted order-by or cursor list. -/
def orderPairs {α : Type} [IntoPair α] (l : List α) : List (String × PValue) :=
  l.map IntoPair.intoPair

/-- The canonical argument list both finalization paths produce: `where`
(merged object) when the where list is non-empty, then `orderBy`, `cursor`
when non-empty, then `skip`, `take` when set. -/
def selectionArguments {Where OrderBy Cursor : Type} [IntoSerializedWhere Where]
    [IntoPair OrderBy] [IntoPair Cursor]
    (where_params : List Where) (order_by_params : List OrderBy)
    (cursor_params : List Cursor) (skip take : Option Int) :
    List (String × PValue) :=
  (if where_params.length > 0 then
    [("where", toQueryValue (merged_object (wherePairs where_params)))]
  else []) ++
  (if order_by_params.length > 0 then
    [("orderBy", toQueryValue (.object (orderPairs order_by_params)))]
  else []) ++
  (if cursor_params.length > 0 then
    [("cursor", toQueryValue (.object (orderPairs cursor_params)))]
  else []) ++
  (match skip with | some n => [("skip", PValue.int n)] | none => []) ++
  (match take with | some n => [("take", PValue.int n)] | none => [])

/-- The names of an argument list, in order. -/
def argNames (args : List (String × PValue)) : List String :=
  args.map Prod.fst

/-- The values carried by the arguments of a given name, in order. -/
def argsNamed (args : List (String × PValue)) (n : String) : List PValue :=
  args.filterMap fun p => if p.1 = n then some p.2 else none

theorem if_length_pos_map {α β : Type} (l : List α) (f : α → β) :
    (if l.length > 0 then l.map f else []) = l.map f := by
  cases l <;> simp

theorem if_length_pos_append_map {α β : Type} (s : List β) (l : List α)
    (f : α → β) :
    (if l.length > 0 then s ++ l.map f else s) = s ++ l.map f := by
  cases l <;> simp

theorem to_selection_eq {Where OrderBy Cursor : Type}
    [IntoSerializedWhere Where] [IntoPair OrderBy] [IntoPair Cursor]
    (model : String) (wps : List Where) (obs : List OrderBy)
    (cps : List Cursor) (sk tk : Option Int) :
    FindMany.to_selection model wps obs cps sk tk =
      SelectionBuilder.mk ("findMany" ++ model) (some "result")
        (selectionArguments wps obs cps sk tk) [] := by
  unfold FindMany.to_selection selectionArguments wherePairs orderPairs
  by_cases hw : wps.length > 0 <;> by_cases ho : obs.length > 0 <;>
    by_cases hc : cps.length > 0 <;> cases sk <;> cases tk <;>
      simp [hw, ho, hc, Selection.builder, SelectionBuilder.set_alias,
        SelectionBuilder.push_argument, toQueryValue]

theorem to_selection_build {Where OrderBy Cursor : Type}
    [IntoSerializedWhere Where] [IntoPair OrderBy] [IntoPair Cursor]
    (model : String) (wps : List Where) (obs : List OrderBy)
    (cps : List Cursor) (sk tk : Option Int) :
    (FindMany.to_selection model wps obs cps sk tk).build =
      Selection.mk ("findMany" ++ model) (some "result")
        (selectionArguments wps obs cps sk tk) [] := by
  rw [to_selection_eq]
  rfl

theorem to_graphql_eq {Where WithP OrderBy Cursor : Type}
    [IntoSerializedWhere Where] [IntoSelection WithP] [IntoPair OrderBy]
    [IntoPair Cursor] (a : ManyArgs Where WithP OrderBy Cursor) :
    a.to_graphql =
      (selectionArguments a.where_params a.order_by_params a.cursor_params
        a.skip a.take,
       a.with_params.map IntoSelection.intoSelection) := by
  obtain ⟨wps, wips, obs, cps, sk, tk⟩ := a
  unfold ManyArgs.to_graphql selectionArguments wherePairs orderPairs
  rw [if_length_pos_map]
  by_cases hw : wps.length > 0 <;> by_cases ho : obs.length > 0 <;>
    by_cases hc : cps.length > 0 <;> cases sk <;> cases tk <;>
      simp [hw, ho, hc, toQueryValue_merged_object, SerializedWhere.toPair]

theorem exec_operation_eq {Where WithP OrderBy Cursor SetP Data : Type}
    [IntoSerializedWhere Where] [IntoSelection WithP] [IntoPair OrderBy]
    [IntoPair Cursor]
    (self : FindMany Where WithP OrderBy Cursor SetP Data) :
    self.exec_operation =
      (Operation.read (Selection.mk ("findMany" ++ self.info.model)
        (some "result")
        (selectionArguments self.where_params self.order_by_params
          self.cursor_params self.skip self.take)
        (self.info.scalar_selections ++
          self.with_params.map IntoSelection.intoSelection)),
       self.ctx) := by
  simp only [FindMany.exec_operation]
  rw [to_selection_eq, if_length_pos_append_map]
  rfl

theorem select_eq {Where WithP OrderBy Cursor SetP Data σ : Type}
    [IntoSerializedWhere Where] [IntoPair OrderBy] [IntoPair Cursor]
    [SelectType σ]
    (self : FindMany Where WithP OrderBy Cursor SetP Data) (sel : σ) :
    self.select sel =
      Select.mk self.ctx (Operation.read
        (Selection.mk ("findMany" ++ self.info.model) (some "result")
          (selectionArguments self.where_params self.order_by_params
            self.cursor_params self.skip self.take)
          (SelectType.to_selections sel))) := by
  simp only [FindMany.select]
  rw [to_selection_eq]
  rfl

theorem argsNamed_selectionArguments_where {Where OrderBy Cursor : Type}
    [IntoSerializedWhere Where] [IntoPair OrderBy] [IntoPair Cursor]
    (wps : List Where) (obs : List OrderBy) (cps : List Cursor)
    (sk tk : Option Int) :
    argsNamed (selectionArguments wps obs cps sk tk) "where" =
      if wps.length > 0 then [toQueryValue (merged_object (wherePairs wps))]
      else [] := by
  unfold selectionArguments argsNamed
  by_cases hw : wps.length > 0 <;> by_cases ho : obs.length > 0 <;>
    by_cases hc : cps.length > 0 <;> cases sk <;> cases tk <;>
      simp [hw, ho, hc]

theorem argsNamed_selectionArguments_orderBy {Where OrderBy Cursor : Type}
    [IntoSerializedWhere Where] [IntoPair OrderBy] [IntoPair Cursor]
    (wps : List Where) (obs : List OrderBy) (cps : List Cursor)
    (sk tk : Option Int) :
    argsNamed (selectionArguments wps obs cps sk tk) "orderBy" =
      if obs.length > 0 then [toQueryValue (.object (orderPairs obs))]
      else [] := by
  unfold selectionArguments argsNamed
  by_cases hw : wps.length > 0 <;> by_cases ho : obs.length > 0 <;>
    by_cases hc : cps.length > 0 <;> cases sk <;> cases tk <;>
      simp [hw, ho, hc]

theorem argsNamed_selectionArguments_cursor {Where OrderBy Cursor : Type}
    [IntoSerializedWhere Where] [IntoPair OrderBy] [IntoPair Cursor]
    (wps : List Where) (obs : List OrderBy) (cps : List Cursor)
    (sk tk : Option Int) :
    argsNamed (selectionArguments wps obs cps sk tk) "cursor" =
      if cps.length > 0 then [toQueryValue (.object (orderPairs cps))]
      else [] := by
  unfold selectionArguments argsNamed
  by_cases hw : wps.length > 0 <;> by_cases ho : obs.length > 0 <;>
    by_cases hc : cps.length > 0 <;> cases sk <;> cases tk <;>
      simp [hw, ho, hc]

theorem argsNamed_selectionArguments_skip {Where OrderBy Cursor : Type}
    [IntoSerializedWhere Where] [IntoPair OrderBy] [IntoPair Cursor]
    (wps : List Where) (obs : List OrderBy) (cps : List Cursor)
    (sk tk : Option Int) :
    argsNamed (selectionArguments wps obs cps sk tk) "skip" =
      (match sk with | some n => [PValue.int n] | none => []) := by
  unfold selectionArguments argsNamed
  by_cases hw : wps.length > 0 <;> by_cases ho : obs.length > 0 <;>
    by_cases hc : cps.length > 0 <;> cases sk <;> cases tk <;>
      simp [hw, ho, hc]

theorem argsNamed_selectionArguments_take {Where OrderBy Cursor : Type}
    [IntoSerializedWhere Where] [IntoPair OrderBy] [IntoPair Cursor]
    (wps : List Where) (obs : List OrderBy) (cps : List Cursor)
    (sk tk : Option Int) :
    argsNamed (selectionArguments wps obs cps sk tk) "take" =
      (match tk with | some n => [PValue.int n] | none => []) := by
  unfold selectionArguments argsNamed
  by_cases hw : wps.length > 0 <;> by_cases ho : obs.length > 0 <;>
    by_cases hc : cps.length > 0 <;> cases sk <;> cases tk <;>
      simp [hw, ho, hc]

theorem argNames_selectionArguments {Where OrderBy Cursor : Type}
    [IntoSerializedWhere Where] [IntoPair OrderBy] [IntoPair Cursor]
    (wps : List Where) (obs : List OrderBy) (cps : List Cursor)
    (sk tk : Option Int) :
    argNames (selectionArguments wps obs cps sk tk) =
      (if wps.length > 0 then ["where"] else []) ++
      (if obs.length > 0 then ["orderBy"] else []) ++
      (if cps.length > 0 then ["cursor"] else []) ++
      (match sk with | some _ => ["skip"] | none => []) ++
      (match tk with | some _ => ["take"] | none => []) := by
  unfold selectionArguments argNames
  by_cases hw : wps.length > 0 <;> by_cases ho : obs.length > 0 <;>
    by_cases hc : cps.length > 0 <;> cases sk <;> cases tk <;>
      simp [hw, ho, hc]

theorem mem_argNames_selectionArguments_where {Where OrderBy Cursor : Type}
    [IntoSerializedWhere Where] [IntoPair OrderBy] [IntoPair Cursor]
    (wps : List Where) (obs : List OrderBy) (cps : List Cursor)
    (sk tk : Option Int) :
    ("where" ∈ argNames (selectionArguments wps obs cps sk tk)) ↔ wps ≠ [] := by
  rw [argNames_selectionArguments, ← List.length_pos]
  by_cases hw : wps.length > 0 <;> by_cases ho : obs.length > 0 <;>
    by_cases hc : cps.length > 0 <;> cases sk <;> cases tk <;>
      simp [hw, ho, hc]

theorem mem_argNames_selectionArguments_orderBy {Where OrderBy Cursor : Type}
    [IntoSerializedWhere Where] [IntoPair OrderBy] [IntoPair Cursor]
    (wps : List Where) (obs : List OrderBy) (cps : List Cursor)
    (sk tk : Option Int) :
    ("orderBy" ∈ argNames (selectionArguments wps obs cps sk tk)) ↔ obs ≠ [] := by
  rw [argNames_selectionArguments, ← List.length_pos]
  by_cases hw : wps.length > 0 <;> by_cases ho : obs.length > 0 <;>
    by_cases hc : cps.length > 0 <;> cases sk <;> cases tk <;>
      simp [hw, ho, hc]

theorem mem_argNames_selectionArguments_cursor {Where OrderBy Cursor : Type}
    [IntoSerializedWhere Where] [IntoPair OrderBy] [IntoPair Cursor]
    (wps : List Where) (obs : List OrderBy) (cps : List Cursor)
    (sk tk : Option Int) :
    ("cursor" ∈ argNames (selectionArguments wps obs cps sk tk)) ↔ cps ≠ [] := by
  rw [argNames_selectionArguments, ← List.length_pos]
  by_cases hw : wps.length > 0 <;> by_cases ho : obs.length > 0 <;>
    by_cases hc : cps.length > 0 <;> cases sk <;> cases tk <;>
      simp [hw, ho, hc]

theorem mem_argNames_selectionArguments_skip {Where OrderBy Cursor : Type}
    [IntoSerializedWhere Where] [IntoPair OrderBy] [IntoPair Cursor]
    (wps : List Where) (obs : List OrderBy) (cps : List Cursor)
    (sk tk : Option Int) :
    ("skip" ∈ argNames (selectionArguments wps obs cps sk tk)) ↔ sk ≠ none := by
  rw [argNames_selectionArguments]
  by_cases hw : wps.length > 0 <;> by_cases ho : obs.length > 0 <;>
    by_cases hc : cps.length > 0 <;> cases sk <;> cases tk <;>
      simp [hw, ho, hc]

theorem mem_argNames_selectionArguments_take {Where OrderBy Cursor : Type}
    [IntoSerializedWhere Where] [IntoPair OrderBy] [IntoPair Cursor]
    (wps : List Where) (obs : List OrderBy) (cps : List Cursor)
    (sk tk : Option Int) :
    ("take" ∈ argNames (selectionArguments wps obs cps sk tk)) ↔ tk ≠ none := by
  rw [argNames_selectionArguments]
  by_cases hw : wps.length > 0 <;> by_cases ho : obs.length > 0 <;>
    by_cases hc : cps.length > 0 <;> cases sk <;> cases tk <;>
      simp [hw, ho, hc]

theorem mapVal_wherePairs_ne_nil {Where : Type} [IntoSerializedWhere Where]
    (wps : List Where) (h : wps ≠ []) :
    mapVal toQueryValue (wherePairs wps) ≠ [] := by
  intro hc
  apply h
  have h1 : wherePairs wps = [] := by
    have := List.map_eq_nil_iff.mp hc
    exact this
  exact List.map_eq_nil_iff.mp h1

theorem mapVal_orderPairs_ne_nil {α : Type} [IntoPair α]
    (l : List α) (h : l ≠ []) : mapVal toQueryValue (orderPairs l) ≠ [] := by
  intro hc
  apply h
  exact List.map_eq_nil_iff.mp (List.map_eq_nil_iff.mp hc)

theorem no_empty_object_selectionArguments_where {Where OrderBy Cursor : Type}
    [IntoSerializedWhere Where] [IntoPair OrderBy] [IntoPair Cursor]
    (wps : List Where) (obs : List OrderBy) (cps : List Cursor)
    (sk tk : Option Int) :
    PValue.object [] ∉ argsNamed (selectionArguments wps obs cps sk tk)
      "where" := by
  rw [argsNamed_selectionArguments_where]
  by_cases hw : wps.length > 0
  · rw [if_pos hw]
    intro hmem
    rw [List.mem_singleton, toQueryValue_merged_object, toQueryValue_object]
      at hmem
    injection hmem with h
    exact mergePairs_ne_nil _
      (mapVal_wherePairs_ne_nil wps (by
        intro hc; subst hc; simp at hw)) h.symm
  · rw [if_neg hw]
    simp

theorem no_empty_object_selectionArguments_orderBy {Where OrderBy Cursor : Type}
    [IntoSerializedWhere Where] [IntoPair OrderBy] [IntoPair Cursor]
    (wps : List Where) (obs : List OrderBy) (cps : List Cursor)
    (sk tk : Option Int) :
    PValue.object [] ∉ argsNamed (selectionArguments wps obs cps sk tk)
      "orderBy" := by
  rw [argsNamed_selectionArguments_orderBy]
  by_cases ho : obs.length > 0
  · rw [if_pos ho]
    intro hmem
    rw [List.mem_singleton, toQueryValue_object] at hmem
    injection hmem with h
    exact mergePairs_ne_nil _
      (mapVal_orderPairs_ne_nil obs (by
        intro hc; subst hc; simp at ho)) h.symm
  · rw [if_neg ho]
    simp

theorem no_empty_object_selectionArguments_cursor {Where OrderBy Cursor : Type}
    [IntoSerializedWhere Where] [IntoPair OrderBy] [IntoPair Cursor]
    (wps : List Where) (obs : List OrderBy) (cps : List Cursor)
    (sk tk : Option Int) :
    PValue.object [] ∉ argsNamed (selectionArguments wps obs cps sk tk)
      "cursor" := by
  rw [argsNamed_selectionArguments_cursor]
  by_cases hc : cps.length > 0
  · rw [if_pos hc]
    intro hmem
    rw [List.mem_singleton, toQueryValue_object] at hmem
    injection hmem with h
    exact mergePairs_ne_nil _
      (mapVal_orderPairs_ne_nil cps (by
        intro hcc; subst hcc; simp at hc)) h.symm
  · rw [if_neg hc]
    simp

/-- C1: for every non-empty where-parameter list, the selection built by
`FindMany::to_selection` and the argument list built by `ManyArgs::to_graphql`
contain exactly one argument named `where` whose value is an object with one
entry per distinct input field, entries in first-occurrence order of the
fields, the later value overwriting the earlier one without changing the
key's position; for the empty where list no `where` argument is emitted. -/
theorem c1_where_argument_merged {Where WithP OrderBy Cursor : Type}
    [IntoSerializedWhere Where] [IntoSelection WithP] [IntoPair OrderBy]
    [IntoPair Cursor] (model : String) (wps : List Where) (wips : List WithP)
    (obs : List OrderBy) (cps : List Cursor) (sk tk : Option Int)
    (hw : wps ≠ []) :
    argsNamed (FindMany.to_selection model wps obs cps sk tk).build.arguments
        "where" =
      [.object (mergePairs (mapVal toQueryValue (wherePairs wps)))] ∧
    argsNamed (ManyArgs.to_graphql ⟨wps, wips, obs, cps, sk, tk⟩).1 "where" =
      [.object (mergePairs (mapVal toQueryValue (wherePairs wps)))] ∧
    keys (mergePairs (mapVal toQueryValue (wherePairs wps))) =
      firstOccurrences (keys (wherePairs wps)) ∧
    (keys (mergePairs (mapVal toQueryValue (wherePairs wps)))).Nodup ∧
    (∀ k, alookup (mergePairs (mapVal toQueryValue (wherePairs wps))) k =
      alookup (mapVal toQueryValue (wherePairs wps)).reverse k) ∧
    argsNamed (FindMany.to_selection model ([] : List Where) obs cps sk
        tk).build.arguments "where" = [] ∧
    argsNamed (ManyArgs.to_graphql (ManyArgs.mk ([] : List Where) wips obs cps
        sk tk)).1 "where" = [] := by
  have hw' : wps.length > 0 := List.length_pos.mpr hw
  have hval : toQueryValue (merged_object (wherePairs wps)) =
      .object (mergePairs (mapVal toQueryValue (wherePairs wps))) := by
    rw [toQueryValue_merged_object, toQueryValue_object]
  refine ⟨?_, ?_, ?_, ?_, ?_, ?_, ?_⟩
  · rw [to_selection_build]
    show argsNamed (selectionArguments wps obs cps sk tk) "where" = _
    rw [argsNamed_selectionArguments_where, if_pos hw', hval]
  · rw [to_graphql_eq]
    show argsNamed (selectionArguments wps obs cps sk tk) "where" = _
    rw [argsNamed_selectionArguments_where, if_pos hw', hval]
  · rw [keys_mergePairs, keys_mapVal]
  · exact nodup_keys_mergePairs _
  · intro k
    exact alookup_mergePairs _ k
  · rw [to_selection_build]
    show argsNamed (selectionArguments ([] : List Where) obs cps sk tk)
      "where" = _
    rw [argsNamed_selectionArguments_where]
    simp
  · rw [to_graphql_eq]
    show argsNamed (selectionArguments ([] : List Where) obs cps sk tk)
      "where" = _
    rw [argsNamed_selectionArguments_where]
    simp

/-- C1 witness: two where clauses on the field `age`, values 18 then 21,
produce exactly one `where` argument whose object is `{age: 21}`. -/
theorem c1_where_argument_merged_witness :
    argsNamed (FindMany.to_selection "User"
        [(("age" : String), PValue.int 18), ("age", PValue.int 21)]
        ([] : List (String × PValue)) ([] : List (String × PValue))
        none none).build.arguments "where" =
      [.object (mergePairs (mapVal toQueryValue (wherePairs
        [(("age" : String), PValue.int 18), ("age", PValue.int 21)])))] ∧
    mergePairs (mapVal toQueryValue (wherePairs
        [(("age" : String), PValue.int 18), ("age", PValue.int 21)])) =
      [("age", PValue.int 21)] := by
  constructor
  · exact (c1_where_argument_merged "User"
      [("age", PValue.int 18), ("age", PValue.int 21)] ([] : List Selection)
      [] [] none none (List.cons_ne_nil _ _)).1
  · rfl

/-- C2: each of the `where`, `orderBy` and `cursor` arguments is present in
the built selection (and in the `to_graphql` argument list) precisely when
its parameter list is non-empty — in particular all three are absent when
all three lists are empty, and none is ever emitted carrying an empty
object. -/
theorem c2_argument_present_iff_nonempty {Where WithP OrderBy Cursor : Type}
    [IntoSerializedWhere Where] [IntoSelection WithP] [IntoPair OrderBy]
    [IntoPair Cursor] (model : String) (wps : List Where) (wips : List WithP)
    (obs : List OrderBy) (cps : List Cursor) (sk tk : Option Int) :
    (("where" ∈ argNames (FindMany.to_selection model wps obs cps sk
        tk).build.arguments) ↔ wps ≠ []) ∧
    (("orderBy" ∈ argNames (FindMany.to_selection model wps obs cps sk
        tk).build.arguments) ↔ obs ≠ []) ∧
    (("cursor" ∈ argNames (FindMany.to_selection model wps obs cps sk
        tk).build.arguments) ↔ cps ≠ []) ∧
    (("where" ∈ argNames (ManyArgs.to_graphql ⟨wps, wips, obs, cps, sk,
        tk⟩).1) ↔ wps ≠ []) ∧
    (("orderBy" ∈ argNames (ManyArgs.to_graphql ⟨wps, wips, obs, cps, sk,
        tk⟩).1) ↔ obs ≠ []) ∧
    (("cursor" ∈ argNames (ManyArgs.to_graphql ⟨wps, wips, obs, cps, sk,
        tk⟩).1) ↔ cps ≠ []) ∧
    PValue.object [] ∉ argsNamed (FindMany.to_selection model wps obs cps sk
      tk).build.arguments "where" ∧
    PValue.object [] ∉ argsNamed (FindMany.to_selection model wps obs cps sk
      tk).build.arguments "orderBy" ∧
    PValue.object [] ∉ argsNamed (FindMany.to_selection model wps obs cps sk
      tk).build.arguments "cursor" ∧
    PValue.object [] ∉ argsNamed (ManyArgs.to_graphql ⟨wps, wips, obs, cps,
      sk, tk⟩).1 "where" ∧
    PValue.object [] ∉ argsNamed (ManyArgs.to_graphql ⟨wps, wips, obs, cps,
      sk, tk⟩).1 "orderBy" ∧
    PValue.object [] ∉ argsNamed (ManyArgs.to_graphql ⟨wps, wips, obs, cps,
      sk, tk⟩).1 "cursor" := by
  rw [to_selection_build, to_graphql_eq]
  exact ⟨mem_argNames_selectionArguments_where wps obs cps sk tk,
    mem_argNames_selectionArguments_orderBy wps obs cps sk tk,
    mem_argNames_selectionArguments_cursor wps obs cps sk tk,
    mem_argNames_selectionArguments_where wps obs cps sk tk,
    mem_argNames_selectionArguments_orderBy wps obs cps sk tk,
    mem_argNames_selectionArguments_cursor wps obs cps sk tk,
    no_empty_object_selectionArguments_where wps obs cps sk tk,
    no_empty_object_selectionArguments_orderBy wps obs cps sk tk,
    no_empty_object_selectionArguments_cursor wps obs cps sk tk,
    no_empty_object_selectionArguments_where wps obs cps sk tk,
    no_empty_object_selectionArguments_orderBy wps obs cps sk tk,
    no_empty_object_selectionArguments_cursor wps obs cps sk tk⟩

/-- C3: the built selection carries a `skip` (resp. `take`) argument exactly
when skip (resp. take) was set, as an integer literal equal to the value
given; in particular a builder on which `skip(0)` was called produces an
explicit `skip: 0` argument. -/
theorem c3_skip_take_present_iff_set {Where WithP OrderBy Cursor SetP Data :
    Type} [IntoSerializedWhere Where] [IntoSelection WithP] [IntoPair OrderBy]
    [IntoPair Cursor] (b : FindMany Where WithP OrderBy Cursor SetP Data) :
    (("skip" ∈ argNames b.exec_operation.1.rootSelection.arguments) ↔
      b.skip ≠ none) ∧
    (("take" ∈ argNames b.exec_operation.1.rootSelection.arguments) ↔
      b.take ≠ none) ∧
    (∀ n, b.skip = some n →
      argsNamed b.exec_operation.1.rootSelection.arguments "skip" =
        [PValue.int n]) ∧
    (∀ n, b.take = some n →
      argsNamed b.exec_operation.1.rootSelection.arguments "take" =
        [PValue.int n]) ∧
    argsNamed (b.set_skip 0).exec_operation.1.rootSelection.arguments "skip" =
      [PValue.int 0] := by
  simp only [exec_operation_eq, Operation.rootSelection, Selection.arguments,
    FindMany.set_skip]
  refine ⟨mem_argNames_selectionArguments_skip _ _ _ _ _,
    mem_argNames_selectionArguments_take _ _ _ _ _, ?_, ?_, ?_⟩
  · intro n h
    rw [argsNamed_selectionArguments_skip, h]
  · intro n h
    rw [argsNamed_selectionArguments_take, h]
  · rw [argsNamed_selectionArguments_skip]

/-- C3 witness: a fresh builder with `skip(0)` called yields an explicit
`skip: 0` argument. -/
theorem c3_skip_take_present_iff_set_witness :
    argsNamed ((FindMany.new ⟨fun _ => EngineResult.ok []⟩ ⟨"User", []⟩
        ([] : List (String × PValue)) :
      FindMany (String × PValue) Selection (String × PValue) (String × PValue)
        (String × PValue) PValue).set_skip
        0).exec_operation.1.rootSelection.arguments "skip" = [PValue.int 0] :=
  (c3_skip_take_present_iff_set
    (FindMany.new ⟨fun _ => EngineResult.ok []⟩ ⟨"User", []⟩
      ([] : List (String × PValue)))).2.2.2.2

/-- C4: converting a `FindMany` builder with `count()`, `update(data)` or
`delete()` yields a builder carrying exactly the original context, model
info and where-parameter list, and the with/order-by/cursor/skip/take state
of the original builder does not influence the converted builder. -/
theorem c4_conversions_preserve_where {Where WithP OrderBy Cursor SetP Data :
    Type} (b : FindMany Where WithP OrderBy Cursor SetP Data)
    (data : List SetP) (wips : List WithP) (obs : List OrderBy)
    (cps : List Cursor) (sk tk : Option Int) :
    b.count.where_params = b.where_params ∧
    b.count.ctx = b.ctx ∧ b.count.info = b.info ∧
    (b.update data).where_params = b.where_params ∧
    (b.update data).ctx = b.ctx ∧ (b.update data).info = b.info ∧
    (b.update data).data = data ∧
    b.delete.where_params = b.where_params ∧
    b.delete.ctx = b.ctx ∧ b.delete.info = b.info ∧
    ({ b with
        with_params := wips,
        order_by_params := obs,
        cursor_params := cps,
        skip := sk,
        take := tk } :
      FindMany Where WithP OrderBy Cursor SetP Data).count = b.count ∧
    ({ b with
        with_params := wips,
        order_by_params := obs,
        cursor_params := cps,
        skip := sk,
        take := tk } :
      FindMany Where WithP OrderBy Cursor SetP Data).update data =
        b.update data ∧
    ({ b with
        with_params := wips,
        order_by_params := obs,
        cursor_params := cps,
        skip := sk,
        take := tk } :
      FindMany Where WithP OrderBy Cursor SetP Data).delete = b.delete :=
  ⟨rfl, rfl, rfl, rfl, rfl, rfl, rfl, rfl, rfl, rfl, rfl, rfl, rfl⟩

/-- C5: the root selection of any built many-query is named
`findMany<model>` and its alias is the fixed constant `result`, for every
model name. -/
theorem c5_root_name_and_alias {Where WithP OrderBy Cursor SetP Data : Type}
    [IntoSerializedWhere Where] [IntoSelection WithP] [IntoPair OrderBy]
    [IntoPair Cursor] (model : String) (wps : List Where)
    (obs : List OrderBy) (cps : List Cursor) (sk tk : Option Int)
    (b : FindMany Where WithP OrderBy Cursor SetP Data) :
    (FindMany.to_selection model wps obs cps sk tk).build.name =
      "findMany" ++ model ∧
    (FindMany.to_selection model wps obs cps sk tk).build.alias_ =
      some "result" ∧
    b.exec_operation.1.rootSelection.name = "findMany" ++ b.info.model ∧
    b.exec_operation.1.rootSelection.alias_ = some "result" := by
  rw [to_selection_build, exec_operation_eq]
  exact ⟨rfl, rfl, rfl, rfl⟩

/-- C6: the children of the root selection built by `exec_operation` are
exactly the model's default scalar selections followed by the converted
with-parameters; the children of the root built by `select` are exactly the
projection's selections, with no defaults and no with-parameters appended. -/
theorem c6_child_selections {Where WithP OrderBy Cursor SetP Data σ : Type}
    [IntoSerializedWhere Where] [IntoSelection WithP] [IntoPair OrderBy]
    [IntoPair Cursor] [SelectType σ]
    (b : FindMany Where WithP OrderBy Cursor SetP Data) (sel : σ) :
    b.exec_operation.1.rootSelection.nested_selections =
      b.info.scalar_selections ++
        b.with_params.map IntoSelection.intoSelection ∧
    (b.select sel).operation.rootSelection.nested_selections =
      SelectType.to_selections sel := by
  rw [exec_operation_eq, select_eq]
  exact ⟨rfl, rfl⟩

/-- C7: for non-empty order-by (resp. cursor) lists, the `orderBy`
(resp. `cursor`) argument emitted by both paths is an object keyed by the
converted pairs, merged by the same rule as the `where` argument: stable
first-occurrence key order, last value wins, never two entries with the same
key. -/
theorem c7_orderby_cursor_merged {Where WithP OrderBy Cursor : Type}
    [IntoSerializedWhere Where] [IntoSelection WithP] [IntoPair OrderBy]
    [IntoPair Cursor] (model : String) (wps : List Where) (wips : List WithP)
    (obs : List OrderBy) (cps : List Cursor) (sk tk : Option Int)
    (ho : obs ≠ []) (hc : cps ≠ []) :
    argsNamed (FindMany.to_selection model wps obs cps sk tk).build.arguments
        "orderBy" =
      [.object (mergePairs (mapVal toQueryValue (orderPairs obs)))] ∧
    argsNamed (ManyArgs.to_graphql ⟨wps, wips, obs, cps, sk, tk⟩).1
        "orderBy" =
      [.object (mergePairs (mapVal toQueryValue (orderPairs obs)))] ∧
    argsNamed (FindMany.to_selection model wps obs cps sk tk).build.arguments
        "cursor" =
      [.object (mergePairs (mapVal toQueryValue (orderPairs cps)))] ∧
    argsNamed (ManyArgs.to_graphql ⟨wps, wips, obs, cps, sk, tk⟩).1
        "cursor" =
      [.object (mergePairs (mapVal toQueryValue (orderPairs cps)))] ∧
    keys (mergePairs (mapVal toQueryValue (orderPairs obs))) =
      firstOccurrences (keys (orderPairs obs)) ∧
    (keys (mergePairs (mapVal toQueryValue (orderPairs obs)))).Nodup ∧
    (∀ k, alookup (mergePairs (mapVal toQueryValue (orderPairs obs))) k =
      alookup (mapVal toQueryValue (orderPairs obs)).reverse k) ∧
    keys (mergePairs (mapVal toQueryValue (orderPairs cps))) =
      firstOccurrences (keys (orderPairs cps)) ∧
    (keys (mergePairs (mapVal toQueryValue (orderPairs cps)))).Nodup ∧
    (∀ k, alookup (mergePairs (mapVal toQueryValue (orderPairs cps))) k =
      alookup (mapVal toQueryValue (orderPairs cps)).reverse k) := by
  have ho' : obs.length > 0 := List.length_pos.mpr ho
  have hc' : cps.length > 0 := List.length_pos.mpr hc
  refine ⟨?_, ?_, ?_, ?_, ?_, ?_, ?_, ?_, ?_, ?_⟩
  · rw [to_selection_build]
    show argsNamed (selectionArguments wps obs cps sk tk) "orderBy" = _
    rw [argsNamed_selectionArguments_orderBy, if_pos ho', toQueryValue_object]
  · rw [to_graphql_eq]
    show argsNamed (selectionArguments wps obs cps sk tk) "orderBy" = _
    rw [argsNamed_selectionArguments_orderBy, if_pos ho', toQueryValue_object]
  · rw [to_selection_build]
    show argsNamed (selectionArguments wps obs cps sk tk) "cursor" = _
    rw [argsNamed_selectionArguments_cursor, if_pos hc', toQueryValue_object]
  · rw [to_graphql_eq]
    show argsNamed (selectionArguments wps obs cps sk tk) "cursor" = _
    rw [argsNamed_selectionArguments_cursor, if_pos hc', toQueryValue_object]
  · rw [keys_mergePairs, keys_mapVal]
  · exact nodup_keys_mergePairs _
  · intro k
    exact alookup_mergePairs _ k
  · rw [keys_mergePairs, keys_mapVal]
  · exact nodup_keys_mergePairs _
  · intro k
    exact alookup_mergePairs _ k

/-- C7 witness: two order-by pairs on the key `name` (`asc` then `desc`)
yield a single-entry `orderBy` object `{name: desc}`. -/
theorem c7_orderby_cursor_merged_witness :
    argsNamed (FindMany.to_selection "User" ([] : List (String × PValue))
        [(("name" : String), PValue.string "asc"),
          ("name", PValue.string "desc")]
        [(("id" : String), PValue.int 1)] none none).build.arguments
        "orderBy" =
      [.object [("name", PValue.string "desc")]] := by
  have h := (c7_orderby_cursor_merged "User" ([] : List (String × PValue))
    ([] : List Selection)
    [("name", PValue.string "asc"), ("name", PValue.string "desc")]
    [("id", PValue.int 1)] none none (List.cons_ne_nil _ _)
    (List.cons_ne_nil _ _)).1
  rw [h]
  rfl

/-- C8: the batch adapter's `graphql` returns exactly the operation `exec`
hands to the engine for the same builder state, without dispatching, and its
`convert` is the identity on every raw engine result. -/
theorem c8_batch_adapter {Where WithP OrderBy Cursor SetP Data : Type}
    [IntoSerializedWhere Where] [IntoSelection WithP] [IntoPair OrderBy]
    [IntoPair Cursor] (b : FindMany Where WithP OrderBy Cursor SetP Data) :
    b.graphql = b.exec_operation.1 ∧
    b.exec = b.exec_operation.2.execute b.graphql ∧
    (∀ (α : Type) (r : EngineResult α), FindMany.convert r = r) :=
  ⟨rfl, rfl, fun _ _ => rfl⟩

/-- C9: each accumulating transition on `FindMany` and on `ManyArgs` is a
pure value transform changing only its own parameter holder — `with`,
`order_by`, `cursor` append at the end of their list, `skip`, `take` set
their option — leaving every other field untouched. -/
theorem c9_accumulator_frame {Where WithP OrderBy Cursor SetP Data : Type}
    (b : FindMany Where WithP OrderBy Cursor SetP Data)
    (a : ManyArgs Where WithP OrderBy Cursor)
    (w : WithP) (o : OrderBy) (c : Cursor) (n m : Int) :
    b.with_ w = { b with with_params := b.with_params ++ [w] } ∧
    b.order_by o = { b with order_by_params := b.order_by_params ++ [o] } ∧
    b.cursor c = { b with cursor_params := b.cursor_params ++ [c] } ∧
    b.set_skip n = { b with skip := some n } ∧
    b.set_take m = { b with take := some m } ∧
    a.with_ w = { a with with_params := a.with_params ++ [w] } ∧
    a.order_by o = { a with order_by_params := a.order_by_params ++ [o] } ∧
    a.cursor c = { a with cursor_params := a.cursor_params ++ [c] } ∧
    a.set_skip n = { a with skip := some n } ∧
    a.set_take m = { a with take := some m } :=
  ⟨rfl, rfl, rfl, rfl, rfl, rfl, rfl, rfl, rfl, rfl⟩

/-- C10: for identical where, order-by, cursor, skip and take parameters,
the argument list of the selection built by `FindMany::to_selection` equals
the argument list built by `ManyArgs::to_graphql` — same names in the same
order with equal values — in particular the `where` value built via
`merged_object` equals the one built as a plain object of all pairs,
including when two where-items share a field name. -/
theorem c10_selection_graphql_agree {Where WithP OrderBy Cursor : Type}
    [IntoSerializedWhere Where] [IntoSelection WithP] [IntoPair OrderBy]
    [IntoPair Cursor] (model : String) (wps : List Where) (wips : List WithP)
    (obs : List OrderBy) (cps : List Cursor) (sk tk : Option Int) :
    (FindMany.to_selection model wps obs cps sk tk).build.arguments =
      (ManyArgs.to_graphql ⟨wps, wips, obs, cps, sk, tk⟩).1 := by
  rw [to_selection_build, to_graphql_eq]
  rfl
